import Mathlib

/-!
Verification development for the `get-data` intraday tick scraper
(`src/get-data/intradaytick.cpp`).

The program is a single class `IntradayTick` implementing: command-line
parsing, a default trading-date-range computation, a request builder, a
blocking event loop over vendor session events, and a CSV writer with
per-date file rollover.  We embed each of these pieces as executable Lean
definitions.

Modelling conventions:
 - C++ `std::string` is embedded as `List Char` (named `Str` below);
   `operator[]` is embedded as `List.get?`, which is `none` exactly when the
   index is not a character position of the string (C++ additionally defines
   `s[s.size()]` as a reference to the null terminator, but that edge never
   arises here: tick timestamps have length 19 and the initial
   `current_processed_date` is empty).
 - `double` tick values are embedded as `Rat`: the program performs no
   arithmetic on them, it only copies them from the message to the CSV row.
 - `int` is embedded as `Int` (no overflow-relevant arithmetic occurs).
 - the file system is a map from file name to the list of rows the file
   holds; the `ofstream` member is the name of the currently open file plus
   an open mode recorded at each `open` call site.
 - `time_t` / `localtime` are embedded as seconds since the epoch plus a
   fixed timezone offset `off`; the civil day number of instant `c` is
   `(c + off) / 86400` (floor division: `Int` division in Lean is
   Euclidean, which agrees with floor for a positive divisor) and
   1970-01-01 (day 0) is a Thursday (weekday 4).
-/

/-- C++ `std::string`, embedded as a list of characters. -/
abbrev Str := List Char

/-- One CSV data row, as written by `processMessage`:
`time << "," << type << "," << value << "," << size`. The record fields are
in the order in which the stream insertions occur. -/
structure CsvRow where
  time : Str
  rtype : Str
  value : Rat
  size : Int
deriving DecidableEq

/-- One element of the `tickData` array of a vendor message; the four fields
read by `processMessage` (`TIME`, `TYPE`, `VALUE`, `TICK_SIZE`). -/
structure TickItem where
  time : Str
  ttype : Str
  value : Rat
  size : Int
deriving DecidableEq

/-- A vendor message: whether it has a `responseError` element, its message
type name (used for the `SessionTerminated` test), and its tick elements. -/
structure SessMsg where
  hasResponseError : Bool
  mtype : Str
  ticks : List TickItem
deriving DecidableEq

/-- The event types distinguished by `eventLoop`. -/
inductive EvType where
  | PARTIAL_RESPONSE
  | RESPONSE
  | SESSION_STATUS
  | OTHER
deriving DecidableEq

/-- A session event: its type and its messages. -/
structure SessEvent where
  etype : EvType
  msgs : List SessMsg
deriving DecidableEq

/-- The `Name SESSION_TERMINATED("SessionTerminated")` constant. -/
def sessionTerminatedName : Str := "SessionTerminated".toList

/-- The open mode passed to `std::ofstream::open`.  The source passes
`std::ios_base::app` at both call sites; `trunc` is included so that the
append-mode claim is about a real choice and not baked into the model. -/
inductive OpenMode where
  | app
  | trunc
deriving DecidableEq

/-- The mutable state of the CSV-writing part of `IntradayTick`:
`d_security` (mutated by `makeFileName`!), `d_startDateTime`,
`current_processed_date`, the name of the file the `csv_file` stream is
open on, the file system, and a global log of all rows written, in order. -/
structure OutState where
  security : Str
  startDateTime : Str
  currentDate : Str
  openName : Str
  fs : Str → List CsvRow
  log : List CsvRow

/-- The constructor of `IntradayTick` together with `run` up to the event loop:
`current_processed_date` is default-constructed (empty) and never assigned
before the first tick is processed. -/
def initialOutState (security startDateTime : Str) (fs : Str → List CsvRow) : OutState :=
  { security := security
    startDateTime := startDateTime
    currentDate := []
    openName := []
    fs := fs
    log := [] }

/-- `std::basic_string::replace(i1, i2, n, c)`: replace the character range
`[i, j)` with `n` copies of `c`.  The call in `makeFileName` passes two
`char` arguments, so overload resolution converts them to this
`(size_type, charT)` form (per the sequence/string integral-argument
disambiguation rule): `n = (size_t)' ' = 32`, `c = '-'`. -/
def cppReplaceRange (s : Str) (i j : Nat) (n : Nat) (c : Char) : Str :=
  s.take i ++ List.replicate n c ++ s.drop j

/-- `makeFileName`: `d_security.replace(begin, end, ' ', '-')` (which
mutates `d_security` and yields the replaced string), then appends `"_"`,
`datetime.substr(0, 10)` and `".csv"`.  Returns the updated object state
together with the produced file name. -/
def makeFileName (st : OutState) (datetime : Str) : OutState × Str :=
  let sec := cppReplaceRange st.security 0 st.security.length (Char.toNat ' ') '-'
  let fn := sec ++ ['_'] ++ datetime.take 10 ++ ".csv".toList
  ({ st with security := sec }, fn)

/-- `std::ofstream::open(name, mode)`: record the open file; with
`std::ios_base::app` the existing contents are kept, with truncation they
are discarded. -/
def openCSV (mode : OpenMode) (name : Str) (st : OutState) : OutState :=
  { st with
    openName := name
    fs := match mode with
          | .app => st.fs
          | .trunc => fun n => if n = name then [] else st.fs n }

/-- Writing one row to the open `csv_file` stream. -/
def writeRow (r : CsvRow) (st : OutState) : OutState :=
  { st with
    fs := fun n => if n = st.openName then st.fs st.openName ++ [r] else st.fs n
    log := st.log ++ [r] }

/-- `loadCSV`: open `makeFileName(d_startDateTime)` in append mode. -/
def loadCSV (st : OutState) : OutState :=
  let p := makeFileName st st.startDateTime
  openCSV .app p.2 p.1

/-- `reloadCSV`: close the stream, set `current_processed_date` to the
item date, and open `makeFileName(current_processed_date)` in append
mode.  Closing has no effect on file contents. -/
def reloadCSV (st : OutState) (item_date : Str) : OutState :=
  let st1 := { st with currentDate := item_date }
  let p := makeFileName st1 st1.currentDate
  openCSV .app p.2 p.1

/-- `dateChanged`: `item_date[9] != current_processed_date[9]`.  The result
is `none` when either index-9 access is out of bounds. -/
def dateChanged (item_date cur : Str) : Option Bool :=
  match item_date.get? 9, cur.get? 9 with
  | some a, some b => some (decide (a ≠ b))
  | _, _ => none

/-- The CSV row written for one tick element (stream insertions in source
order: time, type, value, size). -/
def mkRow (t : TickItem) : CsvRow :=
  { time := t.time, rtype := t.ttype, value := t.value, size := t.size }

/-- The body of the loop of `processMessage` for one tick element: test
`dateChanged`, reload the CSV file if it fired, then write the row.
Returns the `dateChanged` result together with the new state; `none`
models the out-of-bounds string access. -/
def processTick (st : OutState) (t : TickItem) : Option (Bool × OutState) :=
  match dateChanged t.time st.currentDate with
  | none => none
  | some b =>
    let st1 := if b then reloadCSV st t.time else st
    some (b, writeRow (mkRow t) st1)

/-- The loop of `processMessage` over the `tickData` elements. -/
def processTicks (st : OutState) : List TickItem → Option OutState
  | [] => some st
  | t :: ts =>
    match processTick st t with
    | none => none
    | some (_, st') => processTicks st' ts

/-- `processMessage`: one pass over the message's tick elements. -/
def processMessage (st : OutState) (m : SessMsg) : Option OutState :=
  processTicks st m.ticks

/-- `processResponseEvent`: iterate over the messages of the event; a message
with a `responseError` element is only printed (`continue`), all others go
through `processMessage`. -/
def processResponseEvent (st : OutState) : List SessMsg → Option OutState
  | [] => some st
  | m :: ms =>
    if m.hasResponseError then processResponseEvent st ms
    else
      match processMessage st m with
      | none => none
      | some st' => processResponseEvent st' ms

/-- Whether an event makes `eventLoop` finish: a `RESPONSE` event, or a
`SESSION_STATUS` event one of whose messages is `SessionTerminated`. -/
def isTerminalEvent (e : SessEvent) : Bool :=
  e.etype == EvType.RESPONSE ||
    (e.etype == EvType.SESSION_STATUS && e.msgs.any (fun m => m.mtype == sessionTerminatedName))

/-- The `while (!done)` loop of `eventLoop` (after `loadCSV`, before
`unloadCSV`).  Returns the final state together with the list of events
that were dispatched to `processResponseEvent`, in dispatch order.
`none` models either a failed string access inside message processing or
the loop never finishing (the event list runs out with `done` still
false: `session.nextEvent()` would block). -/
def eventLoopAux (st : OutState) : List SessEvent → Option (OutState × List SessEvent)
  | [] => none
  | e :: rest =>
    match e.etype with
    | .PARTIAL_RESPONSE =>
      match processResponseEvent st e.msgs with
      | none => none
      | some st' =>
        match eventLoopAux st' rest with
        | none => none
        | some (st'', ds) => some (st'', e :: ds)
    | .RESPONSE =>
      match processResponseEvent st e.msgs with
      | none => none
      | some st' => some (st', [e])
    | t =>
      if t == EvType.SESSION_STATUS && e.msgs.any (fun m => m.mtype == sessionTerminatedName) then
        some (st, [])
      else eventLoopAux st rest

/-- `eventLoop`: `loadCSV`, the event-polling loop, `unloadCSV` (plain
close, no effect on file contents). -/
def eventLoop (st : OutState) (events : List SessEvent) : Option (OutState × List SessEvent) :=
  eventLoopAux (loadCSV st) events

/-- The civil day number (days since 1970-01-01) of instant `c` under a
fixed timezone offset `off`, as computed by `localtime`. -/
def localDay (off c : Int) : Int :=
  (c + off) / 86400

/-- `tm_wday` of the civil day `d`: day 0 (1970-01-01) is a Thursday, so
the weekday index (0 = Sunday) is `(d + 4) mod 7`. -/
def wdayOfDay (d : Int) : Int :=
  (d + 4) % 7

/-- The `tm_wday` field produced by `localtime` at instant `c`. -/
def tm_wday (off c : Int) : Int :=
  wdayOfDay (localDay off c)

/-- Day `d` is a Saturday or a Sunday (`tm_wday == 0 || tm_wday == 6`). -/
def isWeekendDay (d : Int) : Bool :=
  wdayOfDay d == 0 || wdayOfDay d == 6

/-- A `blpapi::Datetime` as assembled by `getTradingDateRange`: the civil
day (set by `setDate` from the `tm` fields) and the time (set by
`setTime`). -/
structure BDatetime where
  day : Int
  hour : Nat
  minute : Nat
  second : Nat
deriving DecidableEq

/-- The `while (currTime > 0)` loop of `getTradingDateRange`: step back one
day (86400 seconds) at a time, skipping instants whose local weekday is
Sunday (0) or Saturday (6); return the first acceptable instant, or `none`
when the loop guard fails first.  (The `tm_p == NULL` test in the source
can never fire: the pointer is never reassigned.) -/
def tradingDayLoop (off currTime : Int) : Option Int :=
  if h : 0 < currTime then
    let c := currTime - 86400
    if isWeekendDay (localDay off c) then tradingDayLoop off c
    else some c
  else none
termination_by currTime.toNat
decreasing_by
  simp_wf
  omega

/-- `getTradingDateRange(&start, &end)`: find the most recent previous
non-weekend day and return `start` = that day at 15:30:00 and `end` = the
same day at 15:35:00 (`none` models the `-1` failure return, in which case
the request is sent without a date range). -/
def getTradingDateRange (off t : Int) : Option (BDatetime × BDatetime) :=
  match tradingDayLoop off t with
  | none => none
  | some c =>
    some ({ day := localDay off c, hour := 15, minute := 30, second := 0 },
          { day := localDay off c, hour := 15, minute := 35, second := 0 })

/-- The date range put into the request by `sendIntradayTickRequest`:
if either datetime string is empty the computed default range is used
(when the computation fails, no range is set); otherwise the two explicit
strings are used. -/
inductive ReqRange where
  | defaulted (r : Option (BDatetime × BDatetime))
  | explicitRange (sd ed : Str)
deriving DecidableEq

/-- The `startDateTime`/`endDateTime` selection logic of
`sendIntradayTickRequest` (source lines 210-222). -/
def requestRange (sd ed : Str) (off t : Int) : ReqRange :=
  if sd = [] ∨ ed = [] then .defaulted (getTradingDateRange off t)
  else .explicitRange sd ed

/-- The accumulating-digits loop of C `atoi`. -/
def atoiDigits : Str → Int → Int
  | [], acc => acc
  | c :: r, acc =>
    if '0' ≤ c ∧ c ≤ '9' then atoiDigits r (acc * 10 + (Char.toNat c - Char.toNat '0'))
    else acc

/-- C `atoi`: skip whitespace, optional sign, leading digits (0 if none). -/
def atoi (s : Str) : Int :=
  let s1 := s.dropWhile (fun c =>
    c == ' ' || c == '\t' || c == '\n' || c == '\x0b' || c == '\x0c' || c == '\r')
  match s1 with
  | '-' :: r => - atoiDigits r 0
  | '+' :: r => atoiDigits r 0
  | r => atoiDigits r 0

/-- The configuration fields of `IntradayTick` touched by
`parseCommandLine`. -/
structure CmdConfig where
  host : Str
  port : Int
  security : Str
  events : List Str
  startDateTime : Str
  endDateTime : Str
  security_assigned : Bool
  startDateTime_assigned : Bool
  endDateTime_assigned : Bool
  non_interactive : Bool
deriving DecidableEq

/-- The constructor `IntradayTick()`: host and port are set, the strings
are default-constructed (empty), the flags are false. -/
def initialConfig : CmdConfig :=
  { host := "localhost".toList
    port := 8194
    security := []
    events := []
    startDateTime := []
    endDateTime := []
    security_assigned := false
    startDateTime_assigned := false
    endDateTime_assigned := false
    non_interactive := false }

/-- The `for` loop of `parseCommandLine` over `argv[1..argc)`.  Every
branch requires `i + 1 < argc` (a following argument), including the
boolean `-n` flag, which does not consume it; an unrecognized argument, or
a recognized flag in final position, falls through to `printUsage` and
failure (`none`). -/
def parseArgs : CmdConfig → List Str → Option CmdConfig
  | c, [] => some c
  | c, a :: rest =>
    if a = "-s".toList then
      match rest with
      | v :: r => parseArgs { c with security := v, security_assigned := true } r
      | [] => none
    else if a = "-n".toList then
      match rest with
      | _ :: _ => parseArgs { c with non_interactive := true } rest
      | [] => none
    else if a = "-e".toList then
      match rest with
      | v :: r => parseArgs { c with events := c.events ++ [v] } r
      | [] => none
    else if a = "-sd".toList then
      match rest with
      | v :: r => parseArgs { c with startDateTime := v, startDateTime_assigned := true } r
      | [] => none
    else if a = "-ed".toList then
      match rest with
      | v :: r => parseArgs { c with endDateTime := v, endDateTime_assigned := true } r
      | [] => none
    else if a = "-ip".toList then
      match rest with
      | v :: r => parseArgs { c with host := v } r
      | [] => none
    else if a = "-p".toList then
      match rest with
      | v :: r => parseArgs { c with port := atoi v } r
      | [] => none
    else none

/-- The default event types pushed when no `-e` argument was given. -/
def defaultEvents : List Str :=
  ["TRADE".toList, "BID".toList, "ASK".toList]

/-- `parseCommandLine` on `argv[1..argc)`: the argument loop, then the
default `{TRADE, BID, ASK}` fill-in when `d_events` is still empty. -/
def parseCommandLine (args : List Str) : Option CmdConfig :=
  match parseArgs initialConfig args with
  | none => none
  | some c =>
    some (if c.events = [] then { c with events := defaultEvents } else c)

/-- `run` up to the point where the request is sent: a failed parse
returns before any session work, so no request is sent; otherwise the
request phase is reached exactly when the session starts and the service
opens (both external). -/
def runSendsRequest (args : List Str) (sessionStartOk openServiceOk : Bool) : Bool :=
  match parseCommandLine args with
  | none => false
  | some _ => sessionStartOk && openServiceOk

/-- The event types collected by the `-e` branches of the argument loop,
in argument order (an observation function over the same traversal as
`parseArgs`). -/
def suppliedEvents : List Str → List Str
  | [] => []
  | a :: rest =>
    if a = "-s".toList then
      match rest with
      | _ :: r => suppliedEvents r
      | [] => []
    else if a = "-n".toList then
      match rest with
      | _ :: _ => suppliedEvents rest
      | [] => []
    else if a = "-e".toList then
      match rest with
      | v :: r => v :: suppliedEvents r
      | [] => []
    else if a = "-sd".toList then
      match rest with
      | _ :: r => suppliedEvents r
      | [] => []
    else if a = "-ed".toList then
      match rest with
      | _ :: r => suppliedEvents r
      | [] => []
    else if a = "-ip".toList then
      match rest with
      | _ :: r => suppliedEvents r
      | [] => []
    else if a = "-p".toList then
      match rest with
      | _ :: r => suppliedEvents r
      | [] => []
    else []

/-- The command-line validity condition as the claim states it: every
argument in flag position is a recognized flag with at least one further
argument after it; value flags consume the following argument, `-n` does
not. -/
def validArgs : List Str → Bool
  | [] => true
  | a :: rest =>
    if a = "-s".toList then
      match rest with
      | [] => false
      | _ :: r => validArgs r
    else if a = "-n".toList then
      match rest with
      | [] => false
      | _ :: _ => validArgs rest
    else if a = "-e".toList then
      match rest with
      | [] => false
      | _ :: r => validArgs r
    else if a = "-sd".toList then
      match rest with
      | [] => false
      | _ :: r => validArgs r
    else if a = "-ed".toList then
      match rest with
      | [] => false
      | _ :: r => validArgs r
    else if a = "-ip".toList then
      match rest with
      | [] => false
      | _ :: r => validArgs r
    else if a = "-p".toList then
      match rest with
      | [] => false
      | _ :: r => validArgs r
    else false

/-- The per-tick `dateChanged` outcomes of a run of the tick loop of
`processMessage`: the same traversal as `processTicks`, recording, per tick,
whether the file was switched. -/
def switchFlags (st : OutState) : List TickItem → Option (List Bool)
  | [] => some []
  | t :: ts =>
    match processTick st t with
    | none => none
    | some (b, st') =>
      match switchFlags st' ts with
      | none => none
      | some bs => some (b :: bs)

/-- Adjacent-difference of index-9 characters: `expectedSwitches c l` is,
for each element of `l`, whether it differs from its predecessor (the
first is compared against `c`). -/
def expectedSwitches : Option Char → List (Option Char) → List Bool
  | _, [] => []
  | c, d :: rest => decide (d ≠ c) :: expectedSwitches d rest

/-- The day-of-month component of a `YYYY-MM-DDTHH:MM:SS` timestamp:
characters 8 and 9. -/
def dayOfMonth (s : Str) : Str :=
  (s.drop 8).take 2

/-- An empty file system. -/
def emptyFS : Str → List CsvRow := fun _ => []

/-- A sample message with a `responseError` element. -/
def errorMsg : SessMsg :=
  { hasResponseError := true, mtype := [], ticks := [⟨"2008-08-11T15:30:00".toList, "TRADE".toList, 1, 1⟩] }

/-- A sample error-free message with two ticks on the same date. -/
def okMsg : SessMsg :=
  { hasResponseError := false
    mtype := []
    ticks := [⟨"2008-08-11T15:30:00".toList, "TRADE".toList, 101, 5⟩,
              ⟨"2008-08-11T15:30:01".toList, "BID".toList, 102, 7⟩] }

/-- A sample output state whose stored date is in bounds for
`dateChanged`. -/
def sampleState : OutState :=
  { security := "IBM US Equity".toList
    startDateTime := "2008-08-11T15:30:00".toList
    currentDate := "2008-08-11T15:30:00".toList
    openName := "f.csv".toList
    fs := emptyFS
    log := [] }

/-- Helper: the events collected by `parseArgs` are the initial events
followed by the `-e` values, in argument order. -/
theorem parseArgs_events :
    ∀ (c : CmdConfig) (args : List Str) (c' : CmdConfig),
      parseArgs c args = some c' → c'.events = c.events ++ suppliedEvents args := by
  intro c args
  induction c, args using parseArgs.induct <;>
    intro c' h <;>
    rw [parseArgs.eq_def] at h <;>
    simp_all [suppliedEvents]

/-- Helper: success of the argument loop does not depend on the
configuration and matches `validArgs`. -/
theorem parseArgs_isSome :
    ∀ (c : CmdConfig) (args : List Str),
      (parseArgs c args).isSome = validArgs args := by
  intro c args
  induction c, args using parseArgs.induct <;>
    rw [parseArgs.eq_def, validArgs.eq_def] <;>
    simp_all

/-- C9: a message with a `responseError` element produces no CSV rows and
leaves the CSV state unchanged (only a print), and processing continues
with the remaining messages of the event. -/
theorem responseError_message_skipped (st : OutState) (m : SessMsg) (ms : List SessMsg)
    (h : m.hasResponseError = true) :
    processResponseEvent st (m :: ms) = processResponseEvent st ms := by
  simp [processResponseEvent, h]

/-- Witness for C9 at a concrete state and message list. -/
theorem responseError_message_skipped_witness :
    processResponseEvent sampleState [errorMsg] = processResponseEvent sampleState [] :=
  responseError_message_skipped sampleState errorMsg [] rfl

/-- C6: when parsing succeeds, the request's event-type list is exactly
`[TRADE, BID, ASK]` if no `-e` argument was supplied, and exactly the
supplied event types in argument order otherwise. -/
theorem parseCommandLine_events (args : List Str) (c : CmdConfig)
    (h : parseCommandLine args = some c) :
    c.events = if suppliedEvents args = [] then defaultEvents else suppliedEvents args := by
  unfold parseCommandLine at h
  cases hp : parseArgs initialConfig args with
  | none => rw [hp] at h; exact absurd h (by simp)
  | some c0 =>
    rw [hp] at h
    have he := parseArgs_events initialConfig args c0 hp
    have he' : c0.events = suppliedEvents args := by simpa [initialConfig] using he
    injection h with h
    subst h
    rw [← he']
    by_cases hc : c0.events = [] <;> simp [hc]

/-- Witness for C6: one `-e` flag supplied, and none supplied. -/
theorem parseCommandLine_events_witness :
    (parseCommandLine [] = some { initialConfig with events := defaultEvents } ∧
      ({ initialConfig with events := defaultEvents } : CmdConfig).events =
        if suppliedEvents [] = [] then defaultEvents else suppliedEvents []) ∧
    (parseCommandLine ["-e".toList, "XY".toList] =
        some { initialConfig with events := ["XY".toList] } ∧
      ({ initialConfig with events := ["XY".toList] } : CmdConfig).events =
        if suppliedEvents ["-e".toList, "XY".toList] = [] then defaultEvents
        else suppliedEvents ["-e".toList, "XY".toList]) :=
  ⟨⟨rfl, parseCommandLine_events [] _ rfl⟩,
   ⟨rfl, parseCommandLine_events ["-e".toList, "XY".toList] _ rfl⟩⟩

/-- C10: command-line parsing succeeds exactly when every argument in flag
position is a recognized flag followed by at least one further argument
(value flags consume it, `-n` does not); on failure no request is sent. -/
theorem parse_succeeds_iff_validArgs (args : List Str) :
    ((parseCommandLine args).isSome = validArgs args) ∧
    (∀ s o : Bool, validArgs args = false → runSendsRequest args s o = false) := by
  have hps : (parseCommandLine args).isSome = (parseArgs initialConfig args).isSome := by
    unfold parseCommandLine
    cases parseArgs initialConfig args <;> simp
  refine ⟨by rw [hps, parseArgs_isSome], ?_⟩
  intro s o hv
  have hnone : (parseCommandLine args).isSome = false := by
    rw [hps, parseArgs_isSome, hv]
  unfold runSendsRequest
  cases hpc : parseCommandLine args with
  | none => rfl
  | some c => rw [hpc] at hnone; simp at hnone

/-- Witness for C10: a good command line, an unrecognized flag, and a value
flag in final position. -/
theorem parse_succeeds_iff_validArgs_witness :
    ((parseCommandLine ["-s".toList, "IBM".toList]).isSome =
        validArgs ["-s".toList, "IBM".toList]) ∧
    ((parseCommandLine ["-x".toList]).isSome = validArgs ["-x".toList]) ∧
    ((parseCommandLine ["-s".toList]).isSome = validArgs ["-s".toList]) ∧
    runSendsRequest ["-x".toList] true true = false :=
  ⟨(parse_succeeds_iff_validArgs _).1,
   (parse_succeeds_iff_validArgs _).1,
   (parse_succeeds_iff_validArgs _).1,
   (parse_succeeds_iff_validArgs ["-x".toList]).2 true true (by decide)⟩

/-- Helper: index 9 of a string is a valid character position exactly when
the string has at least 10 characters. -/
theorem get9_isSome (s : Str) : (s.get? 9).isSome ↔ 10 ≤ s.length := by
  rw [Option.isSome_iff_ne_none, ne_eq, List.get?_eq_none]
  omega

/-- Helper: a string of length at least 10 has a character at index 9. -/
theorem get9_some_of_len (s : Str) (h : 10 ≤ s.length) : ∃ a, s.get? 9 = some a := by
  have := (get9_isSome s).mpr h
  cases hs : s.get? 9 with
  | none => rw [hs] at this; exact absurd this (by simp)
  | some a => exact ⟨a, rfl⟩

/-- C3 (code evaluation at the failing input): the
`replace(begin(), end(), ' ', '-')` call resolves to the
`(size_type, charT)` overload, so `makeFileName` replaces the whole
security string by 32 dashes: the file name does not contain the security
identifier, and two different securities produce the same file name. -/
theorem makeFileName_discards_security :
    (makeFileName { sampleState with security := "IBM US Equity".toList }
        "2008-08-11T15:30:00".toList).2
      = List.replicate 32 '-' ++ "_2008-08-11.csv".toList ∧
    (makeFileName { sampleState with security := "MSFT US Equity".toList }
        "2008-08-11T15:30:00".toList).2
      = (makeFileName { sampleState with security := "IBM US Equity".toList }
          "2008-08-11T15:30:00".toList).2 := by
  exact ⟨by decide, by decide⟩

/-- C8: the `dateChanged` index-9 accesses are in bounds exactly when both
the tick timestamp and the stored `current_processed_date` have length at
least 10; and on the first tick of a run the stored date is still the
empty string, so the access is out of bounds no matter what the tick
timestamp is. -/
theorem dateChanged_first_call_oob :
    (∀ item cur : Str,
      (dateChanged item cur).isSome ↔ (10 ≤ item.length ∧ 10 ≤ cur.length)) ∧
    (∀ (sec sdt : Str) (fs : Str → List CsvRow) (t : TickItem),
      processTick (loadCSV (initialOutState sec sdt fs)) t = none) := by
  constructor
  · intro item cur
    unfold dateChanged
    cases hi : item.get? 9 with
    | none =>
      have : ¬ 10 ≤ item.length := by
        rw [← get9_isSome, hi]
        simp
      cases hc : cur.get? 9 <;> simp [this]
    | some a =>
      have hil : 10 ≤ item.length := by
        rw [← get9_isSome, hi]
        rfl
      cases hc : cur.get? 9 with
      | none =>
        have : ¬ 10 ≤ cur.length := by
          rw [← get9_isSome, hc]
          simp
        simp [this]
      | some b =>
        have hcl : 10 ≤ cur.length := by
          rw [← get9_isSome, hc]
          rfl
        simp [hil, hcl]
  · intro sec sdt fs t
    have hcur : (loadCSV (initialOutState sec sdt fs)).currentDate = [] := rfl
    have hdc : dateChanged t.time [] = none := by
      unfold dateChanged
      cases h : t.time.get? 9 <;> simp
    unfold processTick
    rw [hcur, hdc]

/-- Witness for C8: concrete in-bounds pair, and the concrete first tick of
a run. -/
theorem dateChanged_first_call_oob_witness :
    ((dateChanged "2008-08-12T15:30:00".toList "2008-08-11T15:30:00".toList).isSome ↔
      (10 ≤ ("2008-08-12T15:30:00".toList : Str).length ∧
        10 ≤ ("2008-08-11T15:30:00".toList : Str).length)) ∧
    processTick
      (loadCSV (initialOutState "IBM US Equity".toList "2008-08-11T15:30:00".toList emptyFS))
      ⟨"2008-08-11T15:30:00".toList, "TRADE".toList, 1, 1⟩ = none :=
  ⟨dateChanged_first_call_oob.1 _ _,
   dateChanged_first_call_oob.2 _ _ emptyFS _⟩

/-- C2 counterexample: a tick whose day-of-month (21) differs from the
stored date's day-of-month (11) but agrees with it at character index 9,
so `dateChanged` reports no change and no file switch happens (the state
is the one from `writeRow` alone: same open file, same current date). -/
theorem dateChanged_misses_day_change :
    dayOfMonth "2008-08-21T15:30:00".toList ≠ dayOfMonth sampleState.currentDate ∧
    dateChanged "2008-08-21T15:30:00".toList sampleState.currentDate = some false ∧
    (processTick sampleState ⟨"2008-08-21T15:30:00".toList, "TRADE".toList, 1, 1⟩).map
        (fun p => p.1) = some false ∧
    (processTick sampleState ⟨"2008-08-21T15:30:00".toList, "TRADE".toList, 1, 1⟩).map
        (fun p => p.2.openName) = some sampleState.openName := by
  refine ⟨by decide, by decide, rfl, rfl⟩

/-- Helper: `reloadCSV` does not change file contents or the log, and sets
the current date to the item date. -/
theorem reloadCSV_parts (st : OutState) (d : Str) :
    (reloadCSV st d).fs = st.fs ∧ (reloadCSV st d).log = st.log ∧
      (reloadCSV st d).currentDate = d := by
  exact ⟨rfl, rfl, rfl⟩

/-- Helper: `writeRow` appends the row to the open file and to the log, and
changes nothing else that the claims observe. -/
theorem writeRow_parts (r : CsvRow) (st : OutState) :
    (writeRow r st).log = st.log ++ [r] ∧
      (writeRow r st).currentDate = st.currentDate ∧
      (∀ n, st.fs n <+: (writeRow r st).fs n) := by
  refine ⟨rfl, rfl, fun n => ?_⟩
  unfold writeRow
  by_cases h : n = st.openName
  · subst h
    simp
  · simp [h]

/-- Helper: one successful step of the tick loop.  When both
index-9 accesses are in bounds the step succeeds; the switch flag is true
exactly when the index-9 characters differ; afterwards the stored date
agrees with the tick timestamp at index 9; the row is appended to the
log; and file contents only grow. -/
theorem processTick_some (st : OutState) (t : TickItem)
    (h1 : 10 ≤ st.currentDate.length) (h2 : 10 ≤ t.time.length) :
    ∃ st', processTick st t =
        some (decide (t.time.get? 9 ≠ st.currentDate.get? 9), st') ∧
      st'.currentDate.get? 9 = t.time.get? 9 ∧
      10 ≤ st'.currentDate.length ∧
      st'.log = st.log ++ [mkRow t] ∧
      (∀ n, st.fs n <+: st'.fs n) := by
  obtain ⟨a, ha⟩ := get9_some_of_len t.time h2
  obtain ⟨b, hb⟩ := get9_some_of_len st.currentDate h1
  have hdc : dateChanged t.time st.currentDate = some (decide (a ≠ b)) := by
    unfold dateChanged
    rw [ha, hb]
  have hflag : decide (t.time.get? 9 ≠ st.currentDate.get? 9) = decide (a ≠ b) := by
    rw [ha, hb]
    by_cases hab : a = b <;> simp [hab]
  unfold processTick
  rw [hdc, hflag]
  by_cases hab : a = b
  · refine ⟨writeRow (mkRow t) st, ?_, ?_, ?_, ?_, ?_⟩
    · simp [hab]
    · rw [(writeRow_parts _ _).2.1, hb, ha, hab]
    · rw [(writeRow_parts _ _).2.1]
      exact h1
    · exact (writeRow_parts _ _).1
    · exact (writeRow_parts _ _).2.2
  · refine ⟨writeRow (mkRow t) (reloadCSV st t.time), ?_, ?_, ?_, ?_, ?_⟩
    · simp [hab]
    · rw [(writeRow_parts _ _).2.1, (reloadCSV_parts _ _).2.2, ha]
    · rw [(writeRow_parts _ _).2.1, (reloadCSV_parts _ _).2.2]
      exact h2
    · rw [(writeRow_parts _ _).1, (reloadCSV_parts _ _).2.1]
    · intro n
      have := (writeRow_parts (mkRow t) (reloadCSV st t.time)).2.2 n
      rwa [(reloadCSV_parts _ _).1] at this

/-- C2 (amended): over any run of the tick loop from a state whose stored
date has length at least 10 and ticks whose timestamps have length at
least 10, the writer switches files exactly at the ticks whose character
at index 9 (the ones digit of the day-of-month) differs from that of the
previously processed tick (the stored date, for the first tick). -/
theorem switchFlags_spec :
    ∀ (ts : List TickItem) (st : OutState),
      10 ≤ st.currentDate.length →
      (∀ t ∈ ts, 10 ≤ t.time.length) →
      switchFlags st ts =
        some (expectedSwitches (st.currentDate.get? 9)
          (ts.map (fun t => t.time.get? 9))) := by
  intro ts
  induction ts with
  | nil => intro st _ _; rfl
  | cons t ts ih =>
    intro st h1 h2
    obtain ⟨st', hpt, hc9, hlen, _, _⟩ :=
      processTick_some st t h1 (h2 t (List.mem_cons_self t ts))
    have hrec := ih st' hlen (fun u hu => h2 u (List.mem_cons_of_mem t hu))
    rw [hc9] at hrec
    simp only [switchFlags, hpt, hrec, List.map_cons, expectedSwitches]

/-- Witness for C2 (amended): three ticks — same index-9 digit (no switch),
different index-9 digit (switch), and a day-of-month change from 11 to 21
that leaves index 9 unchanged (no switch). -/
theorem switchFlags_spec_witness :
    switchFlags sampleState
        [⟨"2008-08-11T15:31:00".toList, "TRADE".toList, 1, 1⟩,
         ⟨"2008-08-12T15:31:00".toList, "TRADE".toList, 1, 1⟩,
         ⟨"2008-08-21T15:31:00".toList, "TRADE".toList, 1, 1⟩] =
      some (expectedSwitches (sampleState.currentDate.get? 9)
        ([⟨"2008-08-11T15:31:00".toList, "TRADE".toList, 1, 1⟩,
          ⟨"2008-08-12T15:31:00".toList, "TRADE".toList, 1, 1⟩,
          ⟨"2008-08-21T15:31:00".toList, "TRADE".toList, 1, 1⟩].map
            (fun t : TickItem => t.time.get? 9))) :=
  switchFlags_spec _ sampleState (by decide) (by decide)

/-- Helper: a successful run of the tick loop appends exactly one row per
tick to the log, in tick order, keeps the stored date in bounds, and only
grows file contents. -/
theorem processTicks_spec :
    ∀ (ts : List TickItem) (st : OutState),
      10 ≤ st.currentDate.length →
      (∀ t ∈ ts, 10 ≤ t.time.length) →
      ∃ st', processTicks st ts = some st' ∧
        st'.log = st.log ++ ts.map mkRow ∧
        10 ≤ st'.currentDate.length ∧
        (∀ n, st.fs n <+: st'.fs n) := by
  intro ts
  induction ts with
  | nil =>
    intro st h1 _
    exact ⟨st, rfl, by simp, h1, fun n => List.prefix_refl _⟩
  | cons t ts ih =>
    intro st h1 h2
    obtain ⟨st', hpt, _, hlen, hlog, hfs⟩ :=
      processTick_some st t h1 (h2 t (List.mem_cons_self t ts))
    obtain ⟨st'', hrun, hlog', hlen', hfs'⟩ :=
      ih st' hlen (fun u hu => h2 u (List.mem_cons_of_mem t hu))
    refine ⟨st'', ?_, ?_, hlen', fun n => (hfs n).trans (hfs' n)⟩
    · simp only [processTicks, hpt, hrun]
    · rw [hlog', hlog]
      simp

/-- C5: for an error-free vendor message (processed from a state whose
index-9 accesses are in bounds), exactly one CSV row is emitted per tick
element of the message, appended in element order, and each row carries
the timestamp, event type, value and size of that element unchanged, in that
field order (`mkRow`). -/
theorem processMessage_rows (st : OutState) (m : SessMsg)
    (_herr : m.hasResponseError = false)
    (h1 : 10 ≤ st.currentDate.length)
    (h2 : ∀ t ∈ m.ticks, 10 ≤ t.time.length) :
    ∃ st', processMessage st m = some st' ∧
      st'.log = st.log ++ m.ticks.map mkRow := by
  obtain ⟨st', hrun, hlog, _, _⟩ := processTicks_spec m.ticks st h1 h2
  exact ⟨st', hrun, hlog⟩

/-- Witness for C5: the two-tick sample message appends exactly its two
rows. -/
theorem processMessage_rows_witness :
    ∃ st', processMessage sampleState okMsg = some st' ∧
      st'.log = sampleState.log ++ okMsg.ticks.map mkRow :=
  processMessage_rows sampleState okMsg rfl (by decide) (by decide)

/-- Helper: a successful `processTick` never shrinks any file. -/
theorem processTick_fs_mono (st : OutState) (t : TickItem) (b : Bool) (st' : OutState)
    (h : processTick st t = some (b, st')) :
    ∀ n, st.fs n <+: st'.fs n := by
  unfold processTick at h
  cases hdc : dateChanged t.time st.currentDate with
  | none => rw [hdc] at h; exact absurd h (by simp)
  | some b0 =>
    rw [hdc] at h
    simp only [Option.some.injEq, Prod.mk.injEq] at h
    intro n
    rw [← h.2]
    cases b0 with
    | false =>
      simpa using (writeRow_parts (mkRow t) st).2.2 n
    | true =>
      have := (writeRow_parts (mkRow t) (reloadCSV st t.time)).2.2 n
      rw [(reloadCSV_parts st t.time).1] at this
      simpa using this

/-- Helper: a successful run of the tick loop never shrinks any file. -/
theorem processTicks_fs_mono :
    ∀ (ts : List TickItem) (st st' : OutState),
      processTicks st ts = some st' → ∀ n, st.fs n <+: st'.fs n := by
  intro ts
  induction ts with
  | nil =>
    intro st st' h n
    unfold processTicks at h
    simp only [Option.some.injEq] at h
    rw [h]
  | cons t ts ih =>
    intro st st' h n
    unfold processTicks at h
    cases hpt : processTick st t with
    | none => rw [hpt] at h; exact absurd h (by simp)
    | some p =>
      rw [hpt] at h
      exact (processTick_fs_mono st t p.1 p.2 (by rw [hpt]) n).trans (ih p.2 st' h n)

/-- Helper: a successful `processResponseEvent` never shrinks any file. -/
theorem processResponseEvent_fs_mono :
    ∀ (ms : List SessMsg) (st st' : OutState),
      processResponseEvent st ms = some st' → ∀ n, st.fs n <+: st'.fs n := by
  intro ms
  induction ms with
  | nil =>
    intro st st' h n
    unfold processResponseEvent at h
    simp only [Option.some.injEq] at h
    rw [h]
  | cons m ms ih =>
    intro st st' h n
    unfold processResponseEvent at h
    by_cases he : m.hasResponseError
    · rw [if_pos he] at h
      exact ih st st' h n
    · rw [if_neg he] at h
      cases hpm : processMessage st m with
      | none => rw [hpm] at h; exact absurd h (by simp)
      | some st1 =>
        rw [hpm] at h
        exact (processTicks_fs_mono m.ticks st st1 hpm n).trans (ih st1 st' h n)

/-- C7: every open of the output CSV file — the initial `loadCSV` open and
every `reloadCSV` rollover reopen — is in append mode, so over a whole
event-loop run the previously existing contents of every file are
preserved unchanged, with the new rows following them. -/
theorem eventLoop_fs_append_only :
    ∀ (events : List SessEvent) (st st' : OutState) (ds : List SessEvent),
      eventLoop st events = some (st', ds) → ∀ n, st.fs n <+: st'.fs n := by
  have haux : ∀ (events : List SessEvent) (st st' : OutState) (ds : List SessEvent),
      eventLoopAux st events = some (st', ds) → ∀ n, st.fs n <+: st'.fs n := by
    intro events
    induction events with
    | nil =>
      intro st st' ds h
      exact absurd h (by simp [eventLoopAux])
    | cons e es ih =>
      intro st st' ds h n
      unfold eventLoopAux at h
      split at h
      · -- PARTIAL_RESPONSE: dispatch, then continue
        split at h
        · exact absurd h (by simp)
        · rename_i st1 hpr
          split at h
          · exact absurd h (by simp)
          · rename_i st2 ds2 hrec
            simp only [Option.some.injEq, Prod.mk.injEq] at h
            rw [← h.1]
            exact (processResponseEvent_fs_mono e.msgs st st1 hpr n).trans
              (ih st1 st2 ds2 hrec n)
      · -- RESPONSE: dispatch, then done
        split at h
        · exact absurd h (by simp)
        · rename_i st1 hpr
          simp only [Option.some.injEq, Prod.mk.injEq] at h
          rw [← h.1]
          exact processResponseEvent_fs_mono e.msgs st st1 hpr n
      · -- status / other events: no CSV activity
        split at h
        · simp only [Option.some.injEq, Prod.mk.injEq] at h
          rw [← h.1]
        · exact ih st st' ds h n
  intro events st st' ds h n
  have h1 := haux events (loadCSV st) st' ds h n
  have h2 : (loadCSV st).fs = st.fs := rfl
  rwa [h2] at h1

/-- The file the sample run writes to: `makeFileName` of the sample state's
`d_startDateTime` (the security is destroyed into 32 dashes). -/
def sampleFileName : Str :=
  List.replicate 32 '-' ++ "_2008-08-11.csv".toList

/-- A state like `sampleState` but whose file system already holds one row
in the target file, to exhibit appending after existing contents. -/
def preloadedState : OutState :=
  { sampleState with
    fs := fun n => if n = sampleFileName
                   then [⟨"2008-08-10T15:30:00".toList, "TRADE".toList, 9, 2⟩]
                   else [] }

/-- A sample event list: one partial response and one final response. -/
def sampleEvents : List SessEvent :=
  [{ etype := .PARTIAL_RESPONSE, msgs := [okMsg] },
   { etype := .RESPONSE, msgs := [okMsg] }]

/-- The result of running the event loop on the preloaded sample state. -/
def sampleRun : OutState × List SessEvent :=
  (eventLoop preloadedState sampleEvents).getD (preloadedState, [])

/-- Witness for C7: on the concrete preloaded run the old contents of the
written file (and of an untouched file) remain a prefix of the new
contents. -/
theorem eventLoop_fs_append_only_witness :
    preloadedState.fs sampleFileName <+: sampleRun.1.fs sampleFileName ∧
    preloadedState.fs "other.csv".toList <+: sampleRun.1.fs "other.csv".toList :=
  ⟨eventLoop_fs_append_only sampleEvents preloadedState sampleRun.1 sampleRun.2 rfl
      sampleFileName,
   eventLoop_fs_append_only sampleEvents preloadedState sampleRun.1 sampleRun.2 rfl
      ("other.csv".toList)⟩

/-- Helper: from an in-bounds state, processing the messages of an event always
succeeds when every tick timestamp is long enough, and the stored date
stays in bounds. -/
theorem processResponseEvent_total :
    ∀ (ms : List SessMsg) (st : OutState),
      10 ≤ st.currentDate.length →
      (∀ m ∈ ms, ∀ t ∈ m.ticks, 10 ≤ t.time.length) →
      ∃ st', processResponseEvent st ms = some st' ∧ 10 ≤ st'.currentDate.length := by
  intro ms
  induction ms with
  | nil =>
    intro st h1 _
    exact ⟨st, rfl, h1⟩
  | cons m ms ih =>
    intro st h1 h2
    unfold processResponseEvent
    by_cases he : m.hasResponseError
    · rw [if_pos he]
      exact ih st h1 (fun m' hm' => h2 m' (List.mem_cons_of_mem m hm'))
    · rw [if_neg he]
      obtain ⟨st1, hrun, _, hlen, _⟩ :=
        processTicks_spec m.ticks st h1 (h2 m (List.mem_cons_self m ms))
      rw [show processMessage st m = processTicks st m.ticks from rfl, hrun]
      exact ih st1 hlen (fun m' hm' => h2 m' (List.mem_cons_of_mem m hm'))

/-- Helper: one loop step on a `PARTIAL_RESPONSE` event dispatches it and
continues. -/
theorem eventLoopAux_cons_partialResponse (st : OutState) (e : SessEvent) (es : List SessEvent)
    (h : e.etype = EvType.PARTIAL_RESPONSE) (st1 : OutState)
    (hpr : processResponseEvent st e.msgs = some st1) :
    eventLoopAux st (e :: es) =
      match eventLoopAux st1 es with
      | none => none
      | some (st2, ds) => some (st2, e :: ds) := by
  obtain ⟨ty, msgs⟩ := e
  simp only at h hpr
  subst h
  simp [eventLoopAux, hpr]

/-- Helper: one loop step on a `RESPONSE` event dispatches it and stops. -/
theorem eventLoopAux_cons_response (st : OutState) (e : SessEvent) (es : List SessEvent)
    (h : e.etype = EvType.RESPONSE) (st1 : OutState)
    (hpr : processResponseEvent st e.msgs = some st1) :
    eventLoopAux st (e :: es) = some (st1, [e]) := by
  obtain ⟨ty, msgs⟩ := e
  simp only at h hpr
  subst h
  simp [eventLoopAux, hpr]

/-- Helper: a `SESSION_STATUS` event with a `SessionTerminated` message
stops the loop without dispatching. -/
theorem eventLoopAux_cons_status_term (st : OutState) (e : SessEvent) (es : List SessEvent)
    (h : e.etype = EvType.SESSION_STATUS)
    (ht : e.msgs.any (fun m => m.mtype == sessionTerminatedName) = true) :
    eventLoopAux st (e :: es) = some (st, []) := by
  obtain ⟨ty, msgs⟩ := e
  simp only at h ht
  subst h
  simp [eventLoopAux, ht]

/-- Helper: a `SESSION_STATUS` event without a `SessionTerminated` message
is skipped. -/
theorem eventLoopAux_cons_status_cont (st : OutState) (e : SessEvent) (es : List SessEvent)
    (h : e.etype = EvType.SESSION_STATUS)
    (ht : e.msgs.any (fun m => m.mtype == sessionTerminatedName) = false) :
    eventLoopAux st (e :: es) = eventLoopAux st es := by
  obtain ⟨ty, msgs⟩ := e
  simp only at h ht
  subst h
  simp [eventLoopAux, ht]

/-- Helper: any other event is skipped. -/
theorem eventLoopAux_cons_other (st : OutState) (e : SessEvent) (es : List SessEvent)
    (h : e.etype = EvType.OTHER) :
    eventLoopAux st (e :: es) = eventLoopAux st es := by
  obtain ⟨ty, msgs⟩ := e
  simp only at h
  subst h
  simp [eventLoopAux]

/-- Helper: the dispatch behaviour of the polling loop, by induction on the
event sequence. -/
theorem eventLoopAux_dispatch :
    ∀ (events : List SessEvent) (st : OutState),
      10 ≤ st.currentDate.length →
      (∀ e ∈ events, ∀ m ∈ e.msgs, ∀ t ∈ m.ticks, 10 ≤ t.time.length) →
      ∀ (eT : SessEvent) (rest : List SessEvent),
      events.dropWhile (fun e => !isTerminalEvent e) = eT :: rest →
      ∃ st', eventLoopAux st events = some (st',
        (events.takeWhile (fun e => !isTerminalEvent e)).filter
            (fun e => e.etype == EvType.PARTIAL_RESPONSE) ++
          (if eT.etype = EvType.RESPONSE then [eT] else [])) := by
  intro events
  induction events with
  | nil =>
    intro st _ _ eT rest hsplit
    simp at hsplit
  | cons e es ih =>
    intro st hst hgood eT rest hsplit
    by_cases hterm : isTerminalEvent e = true
    · have hdw : List.dropWhile (fun x => !isTerminalEvent x) (e :: es) = e :: es := by
        rw [List.dropWhile_cons]
        simp [hterm]
      rw [hdw] at hsplit
      have heT : e = eT ∧ es = rest := by
        injection hsplit with h1 h2
        exact ⟨h1, h2⟩
      obtain ⟨heT1, _⟩ := heT
      subst heT1
      have htw : List.takeWhile (fun x => !isTerminalEvent x) (e :: es) = [] := by
        rw [List.takeWhile_cons]
        simp [hterm]
      rw [htw]
      simp only [List.filter_nil, List.nil_append]
      unfold isTerminalEvent at hterm
      rw [Bool.or_eq_true, Bool.and_eq_true, beq_iff_eq, beq_iff_eq] at hterm
      cases hterm with
      | inl hresp =>
        obtain ⟨st1, hpr, _⟩ :=
          processResponseEvent_total e.msgs st hst (hgood e (List.mem_cons_self e es))
        refine ⟨st1, ?_⟩
        rw [eventLoopAux_cons_response st e es hresp st1 hpr]
        simp [hresp]
      | inr hss =>
        obtain ⟨hs1, hs2⟩ := hss
        refine ⟨st, ?_⟩
        rw [eventLoopAux_cons_status_term st e es hs1 hs2]
        rw [hs1]
        simp
    · rw [Bool.not_eq_true] at hterm
      have hdw : List.dropWhile (fun x => !isTerminalEvent x) (e :: es) =
          List.dropWhile (fun x => !isTerminalEvent x) es := by
        rw [List.dropWhile_cons]
        simp [hterm]
      have htw : List.takeWhile (fun x => !isTerminalEvent x) (e :: es) =
          e :: List.takeWhile (fun x => !isTerminalEvent x) es := by
        rw [List.takeWhile_cons]
        simp [hterm]
      rw [hdw] at hsplit
      have hgood_es : ∀ e' ∈ es, ∀ m ∈ e'.msgs, ∀ t ∈ m.ticks, 10 ≤ t.time.length :=
        fun e' he' => hgood e' (List.mem_cons_of_mem e he')
      cases hety : e.etype with
      | PARTIAL_RESPONSE =>
        obtain ⟨st1, hpr, hlen1⟩ :=
          processResponseEvent_total e.msgs st hst (hgood e (List.mem_cons_self e es))
        obtain ⟨st2, hrec⟩ := ih st1 hlen1 hgood_es eT rest hsplit
        refine ⟨st2, ?_⟩
        rw [eventLoopAux_cons_partialResponse st e es hety st1 hpr, hrec, htw]
        simp [List.filter_cons, hety]
      | RESPONSE =>
        exfalso
        unfold isTerminalEvent at hterm
        rw [hety] at hterm
        simp at hterm
      | SESSION_STATUS =>
        have hany : e.msgs.any (fun m => m.mtype == sessionTerminatedName) = false := by
          unfold isTerminalEvent at hterm
          rw [hety] at hterm
          simpa using hterm
        obtain ⟨st2, hrec⟩ := ih st hst hgood_es eT rest hsplit
        refine ⟨st2, ?_⟩
        rw [eventLoopAux_cons_status_cont st e es hety hany, hrec, htw]
        simp [List.filter_cons, hety]
      | OTHER =>
        obtain ⟨st2, hrec⟩ := ih st hst hgood_es eT rest hsplit
        refine ⟨st2, ?_⟩
        rw [eventLoopAux_cons_other st e es hety, hrec, htw]
        simp [List.filter_cons, hety]

/-- C4: the event loop handles events in arrival order; every
`PARTIAL_RESPONSE` event before the first terminal event is dispatched to
the message handler; the loop stops exactly at the first terminal event —
a `RESPONSE` (whose messages are still dispatched) or a `SESSION_STATUS`
event containing a `SessionTerminated` message (which is not) — and no
later event is processed. -/
theorem eventLoop_dispatch (st : OutState) (events : List SessEvent)
    (hst : 10 ≤ st.currentDate.length)
    (hgood : ∀ e ∈ events, ∀ m ∈ e.msgs, ∀ t ∈ m.ticks, 10 ≤ t.time.length)
    (eT : SessEvent) (rest : List SessEvent)
    (hsplit : events.dropWhile (fun e => !isTerminalEvent e) = eT :: rest) :
    ∃ st', eventLoop st events = some (st',
      (events.takeWhile (fun e => !isTerminalEvent e)).filter
          (fun e => e.etype == EvType.PARTIAL_RESPONSE) ++
        (if eT.etype = EvType.RESPONSE then [eT] else [])) := by
  have hload : (loadCSV st).currentDate = st.currentDate := rfl
  unfold eventLoop
  exact eventLoopAux_dispatch events (loadCSV st) (by rw [hload]; exact hst)
    hgood eT rest hsplit

/-- The terminal event of the sample event sequence for the C4 witness. -/
def c4Term : SessEvent := { etype := .RESPONSE, msgs := [okMsg] }

/-- A sample event sequence: a partial response, an ignorable event, the
final response, and an event after the terminal one. -/
def c4Events : List SessEvent :=
  [{ etype := .PARTIAL_RESPONSE, msgs := [okMsg] },
   { etype := .OTHER, msgs := [errorMsg] },
   c4Term,
   { etype := .PARTIAL_RESPONSE, msgs := [okMsg] }]

/-- Witness for C4 at the sample event sequence. -/
theorem eventLoop_dispatch_witness :
    ∃ st', eventLoop sampleState c4Events = some (st',
      (c4Events.takeWhile (fun e => !isTerminalEvent e)).filter
          (fun e => e.etype == EvType.PARTIAL_RESPONSE) ++
        (if c4Term.etype = EvType.RESPONSE then [c4Term] else [])) :=
  eventLoop_dispatch sampleState c4Events (by decide) (by decide) c4Term
    [{ etype := .PARTIAL_RESPONSE, msgs := [okMsg] }] (by decide)

/-- Helper: one unfolding of the backwards day search. -/
theorem tradingDayLoop_step (off c : Int) (h : 0 < c) :
    tradingDayLoop off c =
      if isWeekendDay (localDay off (c - 86400)) then tradingDayLoop off (c - 86400)
      else some (c - 86400) := by
  rw [tradingDayLoop]
  simp [h]

/-- Helper: arithmetic reading of the weekend test. -/
theorem isWeekendDay_iff (d : Int) :
    isWeekendDay d = true ↔ ((d + 4) % 7 = 0 ∨ (d + 4) % 7 = 6) := by
  unfold isWeekendDay wdayOfDay
  simp

/-- Helper: `getTradingDateRange` returns the most recent day strictly
before the current local day whose weekday is neither Saturday nor Sunday,
at 15:30:00–15:35:00, both bounds on that same day. -/
theorem getTradingDateRange_most_recent_weekday (off t : Int) (ht : 3 * 86400 ≤ t) :
    ∃ d : Int,
      getTradingDateRange off t =
        some ({ day := d, hour := 15, minute := 30, second := 0 },
              { day := d, hour := 15, minute := 35, second := 0 }) ∧
      isWeekendDay d = false ∧
      d < localDay off t ∧
      (∀ e : Int, d < e → e < localDay off t → isWeekendDay e = true) := by
  have h1 : (0 : Int) < t := by omega
  have h2 : (0 : Int) < t - 86400 := by omega
  have h3 : (0 : Int) < t - 86400 - 86400 := by omega
  have hd1 : localDay off (t - 86400) = localDay off t - 1 := by
    unfold localDay
    omega
  have hd2 : localDay off (t - 86400 - 86400) = localDay off t - 2 := by
    unfold localDay
    omega
  have hd3 : localDay off (t - 86400 - 86400 - 86400) = localDay off t - 3 := by
    unfold localDay
    omega
  have hs1 := tradingDayLoop_step off t h1
  rw [hd1] at hs1
  cases hb1 : isWeekendDay (localDay off t - 1) with
  | false =>
    rw [hb1] at hs1
    simp only [Bool.false_eq_true, if_false] at hs1
    refine ⟨localDay off t - 1, ?_, hb1, by omega, ?_⟩
    · unfold getTradingDateRange
      rw [hs1]
      simp [hd1]
    · intro e he1 he2
      exfalso
      omega
  | true =>
    rw [hb1] at hs1
    simp only [if_true] at hs1
    have hs2 := tradingDayLoop_step off (t - 86400) h2
    rw [hd2] at hs2
    cases hb2 : isWeekendDay (localDay off t - 2) with
    | false =>
      rw [hb2] at hs2
      simp only [Bool.false_eq_true, if_false] at hs2
      refine ⟨localDay off t - 2, ?_, hb2, by omega, ?_⟩
      · unfold getTradingDateRange
        rw [hs1, hs2]
        simp [hd2]
      · intro e he1 he2
        have he : e = localDay off t - 1 := by omega
        rw [he]
        exact hb1
    | true =>
      rw [hb2] at hs2
      simp only [if_true] at hs2
      have hs3 := tradingDayLoop_step off (t - 86400 - 86400) h3
      rw [hd3] at hs3
      have hb3 : isWeekendDay (localDay off t - 3) = false := by
        cases hb3 : isWeekendDay (localDay off t - 3) with
        | false => rfl
        | true =>
          have w1 := (isWeekendDay_iff _).mp hb1
          have w2 := (isWeekendDay_iff _).mp hb2
          have w3 := (isWeekendDay_iff _).mp hb3
          exfalso
          omega
      rw [hb3] at hs3
      simp only [Bool.false_eq_true, if_false] at hs3
      refine ⟨localDay off t - 3, ?_, hb3, by omega, ?_⟩
      · unfold getTradingDateRange
        rw [hs1, hs2, hs3]
        simp [hd3]
      · intro e he1 he2
        have he : e = localDay off t - 1 ∨ e = localDay off t - 2 := by omega
        cases he with
        | inl h => rw [h]; exact hb1
        | inr h => rw [h]; exact hb2

/-- C1: when no explicit start/end datetime is supplied, the request's
date range is computed: it is the most recent day strictly before the
current (local) day whose weekday is neither Saturday nor Sunday, with
start time 15:30:00 and end time 15:35:00, start and end on that same
date.  (`off` is the fixed `localtime` offset; the resulting `Datetime`
values are interpreted by the API as GMT.) -/
theorem requestRange_default_spec (off t : Int) (sd ed : Str)
    (hsd : sd = []) (_hed : ed = []) (ht : 3 * 86400 ≤ t) :
    ∃ d : Int,
      requestRange sd ed off t =
        .defaulted (some ({ day := d, hour := 15, minute := 30, second := 0 },
                          { day := d, hour := 15, minute := 35, second := 0 })) ∧
      isWeekendDay d = false ∧
      d < localDay off t ∧
      (∀ e : Int, d < e → e < localDay off t → isWeekendDay e = true) := by
  obtain ⟨d, hr, hw, hlt, hall⟩ := getTradingDateRange_most_recent_weekday off t ht
  refine ⟨d, ?_, hw, hlt, hall⟩
  unfold requestRange
  rw [if_pos (Or.inl hsd), hr]

/-- Witness for C1: offset 0 and `t` four days into the epoch (a Monday);
the range found is day 1 (Friday 1970-01-02) 15:30:00–15:35:00. -/
theorem requestRange_default_spec_witness :
    ∃ d : Int,
      requestRange [] [] 0 345600 =
        .defaulted (some ({ day := d, hour := 15, minute := 30, second := 0 },
                          { day := d, hour := 15, minute := 35, second := 0 })) ∧
      isWeekendDay d = false ∧
      d < localDay 0 345600 ∧
      (∀ e : Int, d < e → e < localDay 0 345600 → isWeekendDay e = true) :=
  requestRange_default_spec 0 345600 [] [] rfl rfl (by norm_num)
